import Mathlib

/-!
# Verification of the ByteView / MemoryRange core

A shallow embedding of the `MemoryRange` byte-view primitive of the nStallr
repository.  The repository ships the exhaustive behavioral test suite
(`tests/MemoryRange/memoryRangeTest.cpp`) but not the implementation file
itself, so every operation below is modelled from the specification
(`spec.md`), which was written as the contract the tests exercise.

Backing storage is modelled as a total function from addresses to byte
values (`Mem`); a `MemoryRange` is the aliasing `(pointer, length)` pair
`(start, range)` into such a store.  The spec invariant "pointer is null
iff length == 0" makes emptiness equivalent to `range = 0`, and `bytes()`
is modelled as `none` exactly in that state.
-/

namespace Yatta

/-- Modelled from the spec: the two error kinds of §7 — `NullArgument`
and `OutOfRange` — that cover the entire core. -/
inductive RangeError where
  | NullArgument
  | OutOfRange
deriving DecidableEq, Repr

/-- Backing storage: a total map from byte addresses to stored values.
Stored values are kept below 256 by the write primitives. -/
abbrev Mem : Type := Nat → Nat

/-- Modelled from the spec: a `MemoryRange` (ByteView) is the aliasing
`(pointer, length)` pair over externally owned storage; `start` is the
address of the first viewed byte and `range` the count of addressable
bytes. -/
structure MemoryRange where
  start : Nat
  range : Nat
deriving DecidableEq, Repr

/-- Modelled from the spec: `empty()` — true iff length is 0. -/
def MemoryRange.empty (mr : MemoryRange) : Bool :=
  mr.range == 0

/-- Modelled from the spec: `hasData()` — logical negation of `empty()`. -/
def MemoryRange.hasData (mr : MemoryRange) : Bool :=
  !mr.empty

/-- Modelled from the spec: `size()` — the current length. -/
def MemoryRange.size (mr : MemoryRange) : Nat :=
  mr.range

/-- Modelled from the spec: `bytes()` — the underlying address, or the
null reference (`none`) when the view is empty. -/
def MemoryRange.bytes (mr : MemoryRange) : Option Nat :=
  if mr.range = 0 then none else some mr.start

/-- Modelled from the spec: `charArray()` — the same underlying address
reinterpreted as a different element type; equal to `bytes()` as an
address, null when empty. -/
def MemoryRange.charArray (mr : MemoryRange) : Option Nat :=
  if mr.range = 0 then none else some mr.start

/-- Write one byte into the store (byte values are taken mod 256, as C++
byte storage does). -/
def writeByte (mem : Mem) (pos b : Nat) : Mem :=
  fun i => if i = pos then b % 256 else mem i

/-- Write a list of bytes into consecutive addresses starting at `pos`. -/
def writeBytes : Mem → Nat → List Nat → Mem
  | mem, _, [] => mem
  | mem, pos, b :: bs => writeBytes (writeByte mem pos b) (pos + 1) bs

/-- Read `n` consecutive bytes starting at address `pos`. -/
def readBytes (mem : Mem) : Nat → Nat → List Nat
  | _, 0 => []
  | pos, n + 1 => mem pos :: readBytes mem (pos + 1) n

/-- Little-endian encoding of a value into `w` bytes (the flat byte
representation of a fixed-layout, trivially copyable value of width `w`). -/
def encLE : Nat → Nat → List Nat
  | 0, _ => []
  | w + 1, v => v % 256 :: encLE w (v / 256)

/-- Little-endian decoding of a byte list back into a value. -/
def decLE : List Nat → Nat
  | [] => 0
  | b :: bs => b % 256 + 256 * decLE bs

/-- Modelled from the spec: read-only indexed access `at(i)` — fails with
`OutOfRange` when the view is empty or `i >= size()`, the bound being
checked before any dereference; otherwise returns byte `i`. -/
def MemoryRange.atIndex (mem : Mem) (mr : MemoryRange) (i : Nat) :
    Except RangeError Nat :=
  if mr.range = 0 then .error .OutOfRange
  else if mr.range ≤ i then .error .OutOfRange
  else .ok (mem (mr.start + i))

/-- Modelled from the spec: mutable indexed access `at(i)` used as a
write — same failure rules as the read-only form; on success stores the
byte value at index `i`.  Returns the possibly failing error together
with the (unchanged on failure) store. -/
def MemoryRange.setIndex (mem : Mem) (mr : MemoryRange) (i v : Nat) :
    Option RangeError × Mem :=
  if mr.range = 0 then (some .OutOfRange, mem)
  else if mr.range ≤ i then (some .OutOfRange, mem)
  else (none, writeByte mem (mr.start + i) v)

/-- Modelled from the spec: `subrange(offset, length)` — a new view
aliasing `[offset, offset+length)` of the source; fails with `OutOfRange`
whenever the source is empty (for every requested offset/length) or
`offset + length > size()`. -/
def MemoryRange.subrange (mr : MemoryRange) (offset length : Nat) :
    Except RangeError MemoryRange :=
  if mr.range = 0 then .error .OutOfRange
  else if mr.range < offset + length then .error .OutOfRange
  else .ok ⟨mr.start + offset, length⟩

/-- Modelled from the spec: byte iteration over a view used to overwrite
every byte in `[0, size())` with value `v` in place. -/
def MemoryRange.fillBytes (mem : Mem) (mr : MemoryRange) (v : Nat) : Mem :=
  writeBytes mem mr.start (List.replicate mr.range v)

/-- Modelled from the spec: `in_raw(source, numBytes, destOffset)` —
copies `numBytes` from the external `source` (the null reference is
`none`) into the view at `destOffset`.  Fails with `NullArgument` if
`source` is null OR the view is empty (checked independent of the
requested length); fails with `OutOfRange` if
`destOffset + numBytes > size()`. -/
def MemoryRange.in_raw (mem : Mem) (mr : MemoryRange)
    (source : Option (List Nat)) (numBytes destOffset : Nat) :
    Option RangeError × Mem :=
  match source with
  | none => (some .NullArgument, mem)
  | some src =>
    if mr.range = 0 then (some .NullArgument, mem)
    else if mr.range < destOffset + numBytes then (some .OutOfRange, mem)
    else (none, writeBytes mem (mr.start + destOffset) (src.take numBytes))

/-- Modelled from the spec: `out_raw(dest, numBytes, srcOffset)` —
symmetric copy from the view into the external `dest` buffer; identical
null/bounds failure rules, substituting `dest` for `source`.  The
external buffer is modelled as the list of bytes it holds; on success its
first `numBytes` entries are overwritten. -/
def MemoryRange.out_raw (mem : Mem) (mr : MemoryRange)
    (dest : Option (List Nat)) (numBytes srcOffset : Nat) :
    Option RangeError × Option (List Nat) :=
  match dest with
  | none => (some .NullArgument, none)
  | some d =>
    if mr.range = 0 then (some .NullArgument, some d)
    else if mr.range < srcOffset + numBytes then (some .OutOfRange, some d)
    else (none, some (readBytes mem (mr.start + srcOffset) numBytes ++ d.drop numBytes))

/-- Modelled from the spec: `in_type<T>(value, offset)` for a
fixed-layout, trivially copyable `T` of byte width `w` — writes the flat
byte representation of `value` into the view at `offset`.  Fails with
`NullArgument` if the view is empty; with `OutOfRange` if
`offset + sizeOf(T) > size()`. -/
def MemoryRange.in_type (mem : Mem) (mr : MemoryRange)
    (w v offset : Nat) : Option RangeError × Mem :=
  if mr.range = 0 then (some .NullArgument, mem)
  else if mr.range < offset + w then (some .OutOfRange, mem)
  else (none, writeBytes mem (mr.start + offset) (encLE w v))

/-- Modelled from the spec: `out_type<T>(value, offset)` for a
fixed-layout `T` of byte width `w` — reads `sizeOf(T)` bytes from the
view at `offset` into the out-parameter `value`; identical failure rules
to `in_type`.  Returns the error together with the out-parameter, which
keeps its prior content on failure. -/
def MemoryRange.out_type (mem : Mem) (mr : MemoryRange)
    (w offset value : Nat) : Option RangeError × Nat :=
  if mr.range = 0 then (some .NullArgument, value)
  else if mr.range < offset + w then (some .OutOfRange, value)
  else (none, decLE (readBytes mem (mr.start + offset) w))

/-- Byte width of the length indicator of the string encoding (a
size-sized unsigned integer; the spec leaves the exact width open, fixed
here to the width its examples require: the size-type width, 8). -/
def sizeOfSizeT : Nat := 8

/-- Modelled from the spec: the string specialization of `in_type` — a
self-describing encoding, a length indicator followed by the payload
bytes, written at `offset`.  Fails with `NullArgument` if the view is
empty; with `OutOfRange` if the encoded (length-indicator + payload)
size exceeds the space available from `offset` to `size()`. -/
def MemoryRange.in_type_string (mem : Mem) (mr : MemoryRange)
    (s : List Nat) (offset : Nat) : Option RangeError × Mem :=
  if mr.range = 0 then (some .NullArgument, mem)
  else if mr.range < offset + sizeOfSizeT + s.length then (some .OutOfRange, mem)
  else (none, writeBytes mem (mr.start + offset) (encLE sizeOfSizeT s.length ++ s))

/-- Modelled from the spec: the string specialization of `out_type` —
reads the length indicator at `offset`, then the payload it announces.
Fails with `NullArgument` if the view is empty; with `OutOfRange` if the
bytes needed exceed the space remaining (the indicator itself does not
fit, or the decoded length implies a payload longer than the bytes
remaining).  Returns the out-parameter unchanged on
failure. -/
def MemoryRange.out_type_string (mem : Mem) (mr : MemoryRange)
    (offset : Nat) (value : List Nat) : Option RangeError × List Nat :=
  if mr.range = 0 then (some .NullArgument, value)
  else if mr.range < offset + sizeOfSizeT then (some .OutOfRange, value)
  else if mr.range < offset + sizeOfSizeT + decLE (readBytes mem (mr.start + offset) sizeOfSizeT)
    then (some .OutOfRange, value)
  else (none, readBytes mem (mr.start + offset + sizeOfSizeT)
    (decLE (readBytes mem (mr.start + offset) sizeOfSizeT)))

/-- Modelled from the spec: copy construction / copy assignment —
duplicates only the `(pointer, length)` pair; the referenced bytes are
untouched (no `Mem` is involved at all). -/
def MemoryRange.copyConstruct (mr : MemoryRange) : MemoryRange :=
  ⟨mr.start, mr.range⟩

/-- Modelled from the spec: move construction / move assignment —
behaviorally identical to copy (there is no resource to transfer
exclusively); returns the new view together with the source, which is
not invalidated. -/
def MemoryRange.moveConstruct (mr : MemoryRange) : MemoryRange × MemoryRange :=
  (⟨mr.start, mr.range⟩, mr)

/-! ## Helper lemmas about the byte-store primitives -/

theorem MemoryRange.empty_iff (mr : MemoryRange) : mr.empty = true ↔ mr.range = 0 := by
  simp [MemoryRange.empty]

theorem MemoryRange.empty_eq_false_iff (mr : MemoryRange) :
    mr.empty = false ↔ mr.range ≠ 0 := by
  simp [MemoryRange.empty]

theorem MemoryRange.hasData_iff (mr : MemoryRange) :
    mr.hasData = true ↔ mr.range ≠ 0 := by
  simp [MemoryRange.hasData, MemoryRange.empty]

theorem writeBytes_apply_out (bs : List Nat) (mem : Mem) (pos i : Nat)
    (h : i < pos ∨ pos + bs.length ≤ i) :
    writeBytes mem pos bs i = mem i := by
  induction bs generalizing mem pos with
  | nil => rfl
  | cons b bs ih =>
    rw [writeBytes, ih _ _ (by simp at h ⊢; omega)]
    simp only [writeByte]
    rw [if_neg (by simp at h; omega)]

theorem writeBytes_replicate_in (l : Nat) (v : Nat) (mem : Mem) (pos k : Nat)
    (h : k < l) :
    writeBytes mem pos (List.replicate l v) (pos + k) = v % 256 := by
  induction l generalizing mem pos k with
  | zero => omega
  | succ l ih =>
    rw [List.replicate_succ, writeBytes]
    match k with
    | 0 =>
      rw [writeBytes_apply_out _ _ _ _ (by omega)]
      simp [writeByte]
    | k + 1 =>
      have : pos + (k + 1) = (pos + 1) + k := by omega
      rw [this, ih _ _ _ (by omega)]

theorem readBytes_length (mem : Mem) (pos n : Nat) :
    (readBytes mem pos n).length = n := by
  induction n generalizing pos with
  | zero => rfl
  | succ n ih => simp [readBytes, ih]

theorem readBytes_congr (f g : Mem) (p q n : Nat)
    (h : ∀ i, i < n → f (p + i) = g (q + i)) :
    readBytes f p n = readBytes g q n := by
  induction n generalizing p q with
  | zero => rfl
  | succ n ih =>
    rw [readBytes, readBytes]
    have h0 := h 0 (by omega)
    simp only [Nat.add_zero] at h0
    rw [h0]
    congr 1
    apply ih
    intro i hi
    have := h (i + 1) (by omega)
    have e1 : p + (i + 1) = p + 1 + i := by omega
    have e2 : q + (i + 1) = q + 1 + i := by omega
    rw [e1, e2] at this
    exact this

theorem readBytes_writeBytes_prefix (xs ys : List Nat) (mem : Mem) (p : Nat) :
    readBytes (writeBytes mem p (xs ++ ys)) p xs.length = xs.map (· % 256) := by
  induction xs generalizing mem p with
  | nil => rfl
  | cons x xs ih =>
    rw [List.cons_append, writeBytes]
    rw [List.length_cons, readBytes]
    rw [writeBytes_apply_out _ _ _ _ (by omega)]
    simp only [writeByte, if_pos rfl]
    rw [ih]
    rfl

theorem readBytes_writeBytes (bs : List Nat) (mem : Mem) (p : Nat) :
    readBytes (writeBytes mem p bs) p bs.length = bs.map (· % 256) := by
  have := readBytes_writeBytes_prefix bs [] mem p
  rwa [List.append_nil] at this

theorem readBytes_writeBytes_suffix (xs ys : List Nat) (mem : Mem) (p : Nat) :
    readBytes (writeBytes mem p (xs ++ ys)) (p + xs.length) ys.length = ys.map (· % 256) := by
  induction xs generalizing mem p with
  | nil =>
    rw [List.nil_append, List.length_nil, Nat.add_zero]
    exact readBytes_writeBytes ys mem p
  | cons x xs ih =>
    rw [List.cons_append, writeBytes, List.length_cons]
    have : p + (xs.length + 1) = (p + 1) + xs.length := by omega
    rw [this, ih]

theorem readBytes_writeBytes_disjoint (mem : Mem) (p : Nat) (bs : List Nat) (q n : Nat)
    (h : q + n ≤ p ∨ p + bs.length ≤ q) :
    readBytes (writeBytes mem p bs) q n = readBytes mem q n := by
  apply readBytes_congr
  intro i hi
  exact writeBytes_apply_out bs mem p (q + i) (by omega)

theorem map_mod_eq_self (l : List Nat) (h : ∀ b ∈ l, b < 256) :
    l.map (· % 256) = l := by
  conv_rhs => rw [← List.map_id l]
  apply List.map_congr_left
  intro a ha
  exact Nat.mod_eq_of_lt (h a ha)

theorem encLE_length (w v : Nat) : (encLE w v).length = w := by
  induction w generalizing v with
  | zero => simp [encLE]
  | succ w ih => simp [encLE, ih]

theorem encLE_lt (w v : Nat) : ∀ b ∈ encLE w v, b < 256 := by
  induction w generalizing v with
  | zero => simp [encLE]
  | succ w ih =>
    intro b hb
    rw [encLE] at hb
    rcases List.mem_cons.mp hb with h | h
    · subst h
      exact Nat.mod_lt _ (by omega)
    · exact ih (v / 256) b h

theorem decLE_encLE (w v : Nat) : decLE (encLE w v) = v % 256 ^ w := by
  induction w generalizing v with
  | zero => simp [encLE, decLE, Nat.mod_one]
  | succ w ih =>
    rw [encLE, decLE, ih, pow_succ', Nat.mod_mul]
    generalize v / 256 % 256 ^ w = X
    omega

/-! ## Success-path characterizations of the codec operations -/

theorem in_type_ok (mem : Mem) (mr : MemoryRange) (w x offset : Nat)
    (hr : mr.range ≠ 0) (hb : offset + w ≤ mr.range) :
    MemoryRange.in_type mem mr w x offset =
      (none, writeBytes mem (mr.start + offset) (encLE w x)) := by
  unfold MemoryRange.in_type
  rw [if_neg hr, if_neg (by omega)]

theorem out_type_ok (mem : Mem) (mr : MemoryRange) (w offset prior : Nat)
    (hr : mr.range ≠ 0) (hb : offset + w ≤ mr.range) :
    MemoryRange.out_type mem mr w offset prior =
      (none, decLE (readBytes mem (mr.start + offset) w)) := by
  unfold MemoryRange.out_type
  rw [if_neg hr, if_neg (by omega)]

theorem in_type_string_ok (mem : Mem) (mr : MemoryRange) (s : List Nat) (offset : Nat)
    (hr : mr.range ≠ 0) (hb : offset + sizeOfSizeT + s.length ≤ mr.range) :
    MemoryRange.in_type_string mem mr s offset =
      (none, writeBytes mem (mr.start + offset) (encLE sizeOfSizeT s.length ++ s)) := by
  unfold MemoryRange.in_type_string
  rw [if_neg hr, if_neg (by omega)]

theorem decLE_readBytes_enc (mem : Mem) (p w x : Nat) (hx : x < 256 ^ w) :
    decLE (readBytes (writeBytes mem p (encLE w x)) p w) = x := by
  have h := readBytes_writeBytes (encLE w x) mem p
  rw [encLE_length] at h
  rw [h, map_mod_eq_self _ (encLE_lt w x), decLE_encLE, Nat.mod_eq_of_lt hx]

/-! ## The claims -/

/-- C1: typed round-trip — for every fixed-layout value `x` (of byte width
`w`, representable in `w` bytes), every non-empty view and every offset
with `offset + sizeOf(T) ≤ size()`, `out_type` at that offset immediately
after `in_type(x, offset)` on the same view yields `x`; and two values
written at disjoint in-bounds offsets are each read back exactly. -/
theorem C1_typed_roundtrip (mem : Mem) (mr : MemoryRange) (hne : mr.hasData = true) :
    (∀ w x offset prior, x < 256 ^ w → offset + w ≤ mr.size →
      MemoryRange.out_type (MemoryRange.in_type mem mr w x offset).2 mr w offset prior
        = (none, x)) ∧
    (∀ w1 x1 o1 w2 x2 o2 prior, x1 < 256 ^ w1 → x2 < 256 ^ w2 →
      o1 + w1 ≤ o2 → o2 + w2 ≤ mr.size →
      MemoryRange.out_type
          (MemoryRange.in_type (MemoryRange.in_type mem mr w1 x1 o1).2 mr w2 x2 o2).2
          mr w1 o1 prior = (none, x1) ∧
      MemoryRange.out_type
          (MemoryRange.in_type (MemoryRange.in_type mem mr w1 x1 o1).2 mr w2 x2 o2).2
          mr w2 o2 prior = (none, x2)) := by
  have hr : mr.range ≠ 0 := (MemoryRange.hasData_iff mr).mp hne
  simp only [MemoryRange.size] at *
  constructor
  · intro w x offset prior hx hb
    rw [in_type_ok mem mr w x offset hr hb]
    rw [out_type_ok _ mr w offset prior hr hb]
    rw [decLE_readBytes_enc _ _ _ _ hx]
  · intro w1 x1 o1 w2 x2 o2 prior hx1 hx2 hdisj hb
    rw [in_type_ok mem mr w1 x1 o1 hr (by omega)]
    rw [in_type_ok _ mr w2 x2 o2 hr (by omega)]
    constructor
    · rw [out_type_ok _ mr w1 o1 prior hr (by omega)]
      rw [readBytes_writeBytes_disjoint _ _ _ _ _ (by rw [encLE_length]; omega)]
      rw [decLE_readBytes_enc _ _ _ _ hx1]
    · rw [out_type_ok _ mr w2 o2 prior hr (by omega)]
      rw [decLE_readBytes_enc _ _ _ _ hx2]

/-- C1 witness: a 5-byte view; a 4-byte value `64` written at offset 0 and
a 1-byte value `123` at offset 4 are each read back exactly, and the
single-value round-trip recovers `64`. -/
theorem C1_typed_roundtrip_witness :
    MemoryRange.out_type
        (MemoryRange.in_type (fun _ => 0) ⟨0, 5⟩ 4 64 0).2 ⟨0, 5⟩ 4 0 0 = (none, 64) ∧
    MemoryRange.out_type
        (MemoryRange.in_type (MemoryRange.in_type (fun _ => 0) ⟨0, 5⟩ 4 64 0).2
          ⟨0, 5⟩ 1 123 4).2 ⟨0, 5⟩ 4 0 0 = (none, 64) ∧
    MemoryRange.out_type
        (MemoryRange.in_type (MemoryRange.in_type (fun _ => 0) ⟨0, 5⟩ 4 64 0).2
          ⟨0, 5⟩ 1 123 4).2 ⟨0, 5⟩ 1 4 0 = (none, 123) := by
  have h := C1_typed_roundtrip (fun _ => 0) ⟨0, 5⟩ (by decide)
  refine ⟨h.1 4 64 0 0 (by norm_num) (by decide), ?_, ?_⟩
  · exact (h.2 4 64 0 1 123 4 0 (by norm_num) (by norm_num) (by decide) (by decide)).1
  · exact (h.2 4 64 0 1 123 4 0 (by norm_num) (by norm_num) (by decide) (by decide)).2

/-- C2: string round-trip — for every text value `s` (a list of byte
values) whose self-describing encoding (length indicator followed by the
payload) fits in the space remaining from `offset` to `size()` of a
non-empty view, `in_type` followed by `out_type` at the same offset
recovers `s` exactly, without the caller supplying the length. -/
theorem C2_string_roundtrip (mem : Mem) (mr : MemoryRange) (s : List Nat)
    (offset : Nat) (prior : List Nat)
    (hne : mr.empty = false)
    (hfit : offset + sizeOfSizeT + s.length ≤ mr.size)
    (hbytes : ∀ b ∈ s, b < 256)
    (hlen : s.length < 256 ^ sizeOfSizeT) :
    MemoryRange.out_type_string (MemoryRange.in_type_string mem mr s offset).2 mr
      offset prior = (none, s) := by
  have hr : mr.range ≠ 0 := (MemoryRange.empty_eq_false_iff mr).mp hne
  simp only [MemoryRange.size] at hfit
  rw [in_type_string_ok mem mr s offset hr hfit]
  have hpre : readBytes
      (writeBytes mem (mr.start + offset) (encLE sizeOfSizeT s.length ++ s))
      (mr.start + offset) sizeOfSizeT = encLE sizeOfSizeT s.length := by
    have h := readBytes_writeBytes_prefix (encLE sizeOfSizeT s.length) s mem (mr.start + offset)
    rw [encLE_length] at h
    rw [h, map_mod_eq_self _ (encLE_lt _ _)]
  have hL : decLE (readBytes
      (writeBytes mem (mr.start + offset) (encLE sizeOfSizeT s.length ++ s))
      (mr.start + offset) sizeOfSizeT) = s.length := by
    rw [hpre, decLE_encLE, Nat.mod_eq_of_lt hlen]
  unfold MemoryRange.out_type_string
  rw [if_neg hr, if_neg (by omega), hL, if_neg (by omega)]
  have h := readBytes_writeBytes_suffix (encLE sizeOfSizeT s.length) s mem (mr.start + offset)
  rw [encLE_length] at h
  rw [h, map_mod_eq_self _ hbytes]

/-- C2 witness: a 30-byte view; the three-byte text `[72, 101, 108]`
("Hel") written at offset 0 is recovered exactly by the string read. -/
theorem C2_string_roundtrip_witness :
    MemoryRange.out_type_string
      (MemoryRange.in_type_string (fun _ => 0) ⟨0, 30⟩ [72, 101, 108] 0).2
      ⟨0, 30⟩ 0 [] = (none, [72, 101, 108]) := by
  exact C2_string_roundtrip (fun _ => 0) ⟨0, 30⟩ [72, 101, 108] 0 []
    (by decide) (by decide) (by decide) (by norm_num [sizeOfSizeT])

/-- C3: `subrange(offset, length)` fails — always with `OutOfRange` —
exactly when the source view is empty (for every requested offset and
length, including the request `(0, 0)`; emptiness alone is disqualifying)
or when it is non-empty and `offset + length > size()`. -/
theorem C3_subrange_failure (mr : MemoryRange) (offset length : Nat) :
    (MemoryRange.subrange mr offset length = Except.error RangeError.OutOfRange ↔
      (mr.empty = true ∨ (mr.empty = false ∧ mr.size < offset + length))) ∧
    (∀ e, MemoryRange.subrange mr offset length = Except.error e →
      e = RangeError.OutOfRange) := by
  unfold MemoryRange.subrange
  simp only [MemoryRange.empty, MemoryRange.size, beq_iff_eq]
  constructor
  · split_ifs with h1 h2 <;> simp_all
  · intro e
    split_ifs <;> simp_all

/-- C3 witness: `subrange(0, 0)` on an empty view fails with `OutOfRange`,
and `subrange(0, 2)` on a 1-byte view fails with `OutOfRange`. -/
theorem C3_subrange_failure_witness :
    MemoryRange.subrange ⟨0, 0⟩ 0 0 = Except.error RangeError.OutOfRange ∧
    MemoryRange.subrange ⟨0, 1⟩ 0 2 = Except.error RangeError.OutOfRange := by
  constructor
  · exact ((C3_subrange_failure ⟨0, 0⟩ 0 0).1).mpr (Or.inl (by decide))
  · exact ((C3_subrange_failure ⟨0, 1⟩ 0 2).1).mpr (Or.inr (by decide))

/-- C4: raw I/O failure contract — `in_raw` (and symmetrically `out_raw`)
fails with `NullArgument` exactly when the external pointer is null or the
view is empty (independent of the requested byte count, including zero),
and with `OutOfRange` exactly when the view is non-empty, the pointer is
non-null, and `destOffset + numBytes > size()`. -/
theorem C4_raw_failure (mem : Mem) (mr : MemoryRange)
    (p d : Option (List Nat)) (n doff soff : Nat) :
    ((MemoryRange.in_raw mem mr p n doff).1 = some RangeError.NullArgument ↔
      (p = none ∨ mr.empty = true)) ∧
    ((MemoryRange.in_raw mem mr p n doff).1 = some RangeError.OutOfRange ↔
      (p ≠ none ∧ mr.empty = false ∧ mr.size < doff + n)) ∧
    ((MemoryRange.out_raw mem mr d n soff).1 = some RangeError.NullArgument ↔
      (d = none ∨ mr.empty = true)) ∧
    ((MemoryRange.out_raw mem mr d n soff).1 = some RangeError.OutOfRange ↔
      (d ≠ none ∧ mr.empty = false ∧ mr.size < soff + n)) := by
  unfold MemoryRange.in_raw MemoryRange.out_raw
  simp only [MemoryRange.empty, MemoryRange.size, beq_iff_eq]
  rcases p with _ | src <;> rcases d with _ | dst <;>
    refine ⟨?_, ?_, ?_, ?_⟩ <;> simp <;> split_ifs <;> simp_all

/-- C5: typed I/O failure contract — `in_type`/`out_type` fail with
`NullArgument` exactly when the view is empty, and with `OutOfRange`
exactly when the view is non-empty but the bytes needed exceed the space
from `offset` to `size()`: `offset + sizeOf(T) > size()` for a
fixed-layout `T`, the encoded indicator-plus-payload size on a string
write, and the indicator or the payload length it announces on a string
read. -/
theorem C5_typed_failure (mem : Mem) (mr : MemoryRange)
    (w x offset val : Nat) (s vs : List Nat) :
    ((MemoryRange.in_type mem mr w x offset).1 = some RangeError.NullArgument ↔
      mr.empty = true) ∧
    ((MemoryRange.in_type mem mr w x offset).1 = some RangeError.OutOfRange ↔
      (mr.empty = false ∧ mr.size < offset + w)) ∧
    ((MemoryRange.out_type mem mr w offset val).1 = some RangeError.NullArgument ↔
      mr.empty = true) ∧
    ((MemoryRange.out_type mem mr w offset val).1 = some RangeError.OutOfRange ↔
      (mr.empty = false ∧ mr.size < offset + w)) ∧
    ((MemoryRange.in_type_string mem mr s offset).1 = some RangeError.NullArgument ↔
      mr.empty = true) ∧
    ((MemoryRange.in_type_string mem mr s offset).1 = some RangeError.OutOfRange ↔
      (mr.empty = false ∧ mr.size < offset + sizeOfSizeT + s.length)) ∧
    ((MemoryRange.out_type_string mem mr offset vs).1 = some RangeError.NullArgument ↔
      mr.empty = true) ∧
    ((MemoryRange.out_type_string mem mr offset vs).1 = some RangeError.OutOfRange ↔
      (mr.empty = false ∧ (mr.size < offset + sizeOfSizeT ∨
        mr.size < offset + sizeOfSizeT +
          decLE (readBytes mem (mr.start + offset) sizeOfSizeT)))) := by
  unfold MemoryRange.in_type MemoryRange.out_type
    MemoryRange.in_type_string MemoryRange.out_type_string
  simp only [MemoryRange.empty, MemoryRange.size, beq_iff_eq]
  refine ⟨?_, ?_, ?_, ?_, ?_, ?_, ?_, ?_⟩ <;> split_ifs <;> simp_all

/-- C7: copy and move duplicate only the `(pointer, length)` pair — the
duplicate returns the same address from `bytes()` and the same `size()`,
the referenced bytes are untouched, move is behaviorally identical to
copy, and the move source is not invalidated. -/
theorem C7_copy_move_alias (mr : MemoryRange) :
    (MemoryRange.copyConstruct mr).bytes = mr.bytes ∧
    (MemoryRange.copyConstruct mr).size = mr.size ∧
    (MemoryRange.moveConstruct mr).1 = MemoryRange.copyConstruct mr ∧
    (MemoryRange.moveConstruct mr).2 = mr :=
  ⟨rfl, rfl, rfl, rfl⟩

/-- C8: indexed access safety — `at(i)` (read form `atIndex` and write
form `setIndex`) fails with `OutOfRange` exactly when the view is empty
or `i ≥ size()`; the failing result is independent of the store (the
bound is checked before any dereference, and a failing write leaves the
store untouched); for `i < size()` on a non-empty view it accesses
byte `i`. -/
theorem C8_index_safety (mr : MemoryRange) (i v : Nat) :
    (∀ mem : Mem, MemoryRange.atIndex mem mr i = Except.error RangeError.OutOfRange ↔
      (mr.empty = true ∨ mr.size ≤ i)) ∧
    (∀ mem : Mem, (MemoryRange.setIndex mem mr i v).1 = some RangeError.OutOfRange ↔
      (mr.empty = true ∨ mr.size ≤ i)) ∧
    (∀ mem : Mem, mr.empty = false → i < mr.size →
      MemoryRange.atIndex mem mr i = Except.ok (mem (mr.start + i))) ∧
    (∀ mem : Mem, mr.empty = false → i < mr.size →
      MemoryRange.setIndex mem mr i v = (none, writeByte mem (mr.start + i) v)) ∧
    (∀ mem : Mem, (mr.empty = true ∨ mr.size ≤ i) →
      (MemoryRange.setIndex mem mr i v).2 = mem) := by
  unfold MemoryRange.atIndex MemoryRange.setIndex
  simp only [MemoryRange.empty, MemoryRange.size, beq_iff_eq]
  refine ⟨?_, ?_, ?_, ?_, ?_⟩ <;> intro mem <;> split_ifs <;> simp_all

/-- C8 witness: on a 4-byte view starting at address 0 over the store
that holds 7 everywhere, reading index 2 yields 7 and index 9 fails with
`OutOfRange`; on an empty view index 0 fails and a failing write leaves
the store untouched. -/
theorem C8_index_safety_witness :
    MemoryRange.atIndex (fun _ => 7) ⟨0, 4⟩ 2 = Except.ok 7 ∧
    MemoryRange.atIndex (fun _ => 7) ⟨0, 4⟩ 9 = Except.error RangeError.OutOfRange ∧
    MemoryRange.atIndex (fun _ => 7) ⟨0, 0⟩ 0 = Except.error RangeError.OutOfRange ∧
    (MemoryRange.setIndex (fun _ => 7) ⟨0, 0⟩ 0 5).2 = (fun _ => 7) := by
  refine ⟨?_, ?_, ?_, ?_⟩
  · exact (C8_index_safety ⟨0, 4⟩ 2 0).2.2.1 (fun _ => 7) (by decide) (by decide)
  · exact ((C8_index_safety ⟨0, 4⟩ 9 0).1 (fun _ => 7)).mpr (Or.inr (by decide))
  · exact ((C8_index_safety ⟨0, 0⟩ 0 0).1 (fun _ => 7)).mpr (Or.inl (by decide))
  · exact (C8_index_safety ⟨0, 0⟩ 0 5).2.2.2.2 (fun _ => 7) (Or.inl (by decide))

/-- C6: subrange success and aliasing — for every non-empty view and all
`o, l` with `o + l ≤ size()`, `subrange(o, l)` succeeds with size `l` and
accesses the same storage element for element
(`sub[i] = parent[o + i]`); overwriting every byte of the sub-view with a
byte value `v` (via byte iteration) mutates exactly those `l` bytes of
the parent's storage and leaves every byte outside `[o, o + l)`
unchanged. -/
theorem C6_subrange_alias (mem : Mem) (mr : MemoryRange) (o l v : Nat)
    (hne : mr.empty = false) (hob : o + l ≤ mr.size) (hv : v < 256) :
    ∃ sub, MemoryRange.subrange mr o l = Except.ok sub ∧
      sub.size = l ∧
      (∀ i, i < l → MemoryRange.atIndex mem sub i = MemoryRange.atIndex mem mr (o + i)) ∧
      (∀ i, o ≤ i → i < o + l → MemoryRange.fillBytes mem sub v (mr.start + i) = v) ∧
      (∀ i, i < o ∨ o + l ≤ i → MemoryRange.fillBytes mem sub v (mr.start + i)
        = mem (mr.start + i)) := by
  have hr : mr.range ≠ 0 := (MemoryRange.empty_eq_false_iff mr).mp hne
  simp only [MemoryRange.size] at hob
  refine ⟨⟨mr.start + o, l⟩, ?_, rfl, ?_, ?_, ?_⟩
  · unfold MemoryRange.subrange
    rw [if_neg hr, if_neg (by omega)]
  · intro i hi
    unfold MemoryRange.atIndex
    rw [if_neg (by simp; omega), if_neg (by simp; omega),
      if_neg hr, if_neg (by simp; omega)]
    have e : mr.start + o + i = mr.start + (o + i) := by omega
    rw [e]
  · intro i h1 h2
    unfold MemoryRange.fillBytes
    dsimp only
    have e : mr.start + i = (mr.start + o) + (i - o) := by omega
    rw [e, writeBytes_replicate_in _ _ _ _ _ (by omega)]
    exact Nat.mod_eq_of_lt hv
  · intro i h
    unfold MemoryRange.fillBytes
    dsimp only
    apply writeBytes_apply_out
    rw [List.length_replicate]
    omega

/-- C6 witness: a 10-byte view over the all-zero store; `subrange(2, 3)`
succeeds with size 3, aliases the parent (`sub[1] = parent[3]`), and
filling the sub-view with 123 sets parent bytes 2..4 to 123 while leaving
bytes 1 and 5 zero. -/
theorem C6_subrange_alias_witness :
    ∃ sub, MemoryRange.subrange ⟨0, 10⟩ 2 3 = Except.ok sub ∧
      sub.size = 3 ∧
      MemoryRange.atIndex (fun _ => 0) sub 1 = MemoryRange.atIndex (fun _ => 0) ⟨0, 10⟩ 3 ∧
      MemoryRange.fillBytes (fun _ => 0) sub 123 2 = 123 ∧
      MemoryRange.fillBytes (fun _ => 0) sub 123 4 = 123 ∧
      MemoryRange.fillBytes (fun _ => 0) sub 123 1 = 0 ∧
      MemoryRange.fillBytes (fun _ => 0) sub 123 5 = 0 := by
  obtain ⟨sub, h1, h2, h3, h4, h5⟩ :=
    C6_subrange_alias (fun _ => 0) ⟨0, 10⟩ 2 3 123 (by decide) (by decide) (by decide)
  exact ⟨sub, h1, h2, h3 1 (by decide), h4 2 (by decide) (by decide),
    h4 4 (by decide) (by decide), h5 1 (Or.inl (by decide)), h5 5 (Or.inr (by decide))⟩

/-- C9: failure atomicity — for every mutating operation of the core
(indexed write, `in_raw`/`out_raw`, `in_type`/`out_type` including the
string specialization), a failing call has no partial effect: the view's
backing store, the external destination buffer, and the out-parameters
are returned exactly as they were. -/
theorem C9_failure_atomicity (mem : Mem) (mr : MemoryRange)
    (i v n doff soff w x offset val : Nat) (p d : Option (List Nat))
    (s vs : List Nat) :
    (∀ e, (MemoryRange.setIndex mem mr i v).1 = some e →
      (MemoryRange.setIndex mem mr i v).2 = mem) ∧
    (∀ e, (MemoryRange.in_raw mem mr p n doff).1 = some e →
      (MemoryRange.in_raw mem mr p n doff).2 = mem) ∧
    (∀ e, (MemoryRange.out_raw mem mr d n soff).1 = some e →
      (MemoryRange.out_raw mem mr d n soff).2 = d) ∧
    (∀ e, (MemoryRange.in_type mem mr w x offset).1 = some e →
      (MemoryRange.in_type mem mr w x offset).2 = mem) ∧
    (∀ e, (MemoryRange.out_type mem mr w offset val).1 = some e →
      (MemoryRange.out_type mem mr w offset val).2 = val) ∧
    (∀ e, (MemoryRange.in_type_string mem mr s offset).1 = some e →
      (MemoryRange.in_type_string mem mr s offset).2 = mem) ∧
    (∀ e, (MemoryRange.out_type_string mem mr offset vs).1 = some e →
      (MemoryRange.out_type_string mem mr offset vs).2 = vs) := by
  unfold MemoryRange.setIndex MemoryRange.in_raw MemoryRange.out_raw
    MemoryRange.in_type MemoryRange.out_type
    MemoryRange.in_type_string MemoryRange.out_type_string
  rcases p with _ | src <;> rcases d with _ | dst <;>
    refine ⟨?_, ?_, ?_, ?_, ?_, ?_, ?_⟩ <;> intro e <;> split_ifs <;> simp_all

/-- C9 witness: a failing indexed write on an empty view, a failing
`in_raw` with a null source, a failing bounds-exceeding `in_type` on a
1-byte view, and a failing string read on a 1-byte view all leave their
targets exactly as they were. -/
theorem C9_failure_atomicity_witness :
    (MemoryRange.setIndex (fun _ => 0) ⟨0, 0⟩ 0 9).2 = (fun _ => 0) ∧
    (MemoryRange.in_raw (fun _ => 0) ⟨0, 1234⟩ none 0 0).2 = (fun _ => 0) ∧
    (MemoryRange.in_type (fun _ => 0) ⟨0, 1⟩ 8 7 0).2 = (fun _ => 0) ∧
    (MemoryRange.out_type_string (fun _ => 0) ⟨0, 1⟩ 0 [5]).2 = [5] := by
  refine ⟨?_, ?_, ?_, ?_⟩
  · exact (C9_failure_atomicity (fun _ => 0) ⟨0, 0⟩ 0 9 0 0 0 0 0 0 0 none none [] []).1
      RangeError.OutOfRange (by decide)
  · exact (C9_failure_atomicity (fun _ => 0) ⟨0, 1234⟩ 0 0 0 0 0 0 0 0 0 none none [] []).2.1
      RangeError.NullArgument (by decide)
  · exact (C9_failure_atomicity (fun _ => 0) ⟨0, 1⟩ 0 0 0 0 0 8 7 0 0 none none [] []).2.2.2.1
      RangeError.OutOfRange (by decide)
  · exact (C9_failure_atomicity (fun _ => 0) ⟨0, 1⟩ 0 0 0 0 0 0 0 0 0 none none [] [5]).2.2.2.2.2.2
      RangeError.OutOfRange (by decide)

end Yatta
